import Mathlib

/-!
Verification development for the `audio_visualizer_pro` repository.

The Python sources are embedded shallowly: machine floats are modelled as
rationals (`ℚ`), numpy arrays as lists, fallible operations as `Option` or
`Except`, and the external collaborators (librosa feature extraction, the
PIL image-enhancement calls, the ffmpeg subprocesses, the process pool) as
explicit function parameters at their boundary, exactly as §1/§6 of the
design document delimit them.
-/

namespace AudioVizPro

/-! ### Numeric helpers -/

/-- Python `int(x)` / numpy `.astype(...)` truncation toward zero, for the
nonnegative values that arise here; on a negative rational it clamps to `0`
(callers only reach it with nonnegative arguments). -/
def natFloor (q : ℚ) : ℕ := (⌊q⌋).toNat

/-- Modelled from the spec: Python's builtin `round` (round half to even),
which §3/§8 of the spec use for the frame count (`round(duration * fps)`).
The code itself (analyzer.py line 264) instead uses `int(duration * fps)`;
this definition exists only to compare the spec's words with the code. -/
def pyRound (q : ℚ) : ℤ :=
  if q - ⌊q⌋ < 1/2 then ⌊q⌋
  else if q - ⌊q⌋ > 1/2 then ⌊q⌋ + 1
  else if ⌊q⌋ % 2 = 0 then ⌊q⌋ else ⌊q⌋ + 1

/-! ### AudioAnalyzer (src/src/analyzer.py)

`_extract_features` is embedded from the point where the librosa feature
arrays have been produced: the spectral algorithms themselves are the
external audio-analysis capability (spec §1), so the raw librosa outputs
are inputs of the model. -/

/-- numpy `np.linspace(0, 1, n)`. -/
def linspace01 : ℕ → List ℚ
  | 0 => []
  | 1 => [0]
  | n + 2 => (List.range (n + 2)).map fun (i : ℕ) => (i : ℚ) / ((n : ℚ) + 1)

/-- One point of `np.interp`: walk the `(xp, fp)` pairs; a query left of the
first sample point gets the first value, right of the last gets the last
value, otherwise linear interpolation on the enclosing interval. -/
def interpPoint (x : ℚ) : List (ℚ × ℚ) → ℚ
  | [] => 0
  | [(_, y1)] => y1
  | (x1, y1) :: (x2, y2) :: rest =>
    if x ≤ x1 then y1
    else if x ≤ x2 then y1 + (y2 - y1) * (x - x1) / (x2 - x1)
    else interpPoint x ((x2, y2) :: rest)

/-- numpy `np.interp(xnew, xp, fp)`. numpy raises `ValueError` when `xp` is
empty or when `xp` and `fp` differ in length; both are modelled as `none`. -/
def npInterp (xnew xp fp : List ℚ) : Option (List ℚ) :=
  if xp.length = 0 ∨ xp.length ≠ fp.length then none
  else some (xnew.map fun x => interpPoint x (xp.zip fp))

/-- `AudioAnalyzer._normalize`: min-max normalization to `[0, 1]`, all zeros
when the spread is below `1e-8`. numpy's `x.min()` raises on an empty
array, modelled as `none`. -/
def normalize (x : List ℚ) : Option (List ℚ) :=
  (x.min?).bind fun mn =>
  (x.max?).bind fun mx =>
  if mx - mn < 1 / 100000000 then some (x.map fun _ => 0)
  else some (x.map fun v => (v - mn) / (mx - mn))

/-- `AudioAnalyzer._interpolate_to_length`: return the data unchanged when
it already has the target length, otherwise `np.interp` over a normalized
`[0, 1]` axis. -/
def interpolate_to_length (data : List ℚ) (target_length : ℕ) : Option (List ℚ) :=
  if data.length = target_length then some data
  else npInterp (linspace01 target_length) (linspace01 data.length) data

/-- numpy `arr.shape[1]` of a 2-d array modelled as a list of rows (numpy
arrays are rectangular, so the first row's length is the column count). -/
def arrCols (m : List (List ℚ)) : ℕ := (m.headD []).length

/-- Sequencing of a fallible body over a list, modelling a Python `for`
loop whose body can raise: the first exception aborts the whole loop. -/
def optMap (g : α → Option β) : List α → Option (List β)
  | [] => some []
  | a :: as =>
    (g a).bind fun b =>
    (optMap g as).bind fun bs =>
    some (b :: bs)

/-- `AudioAnalyzer._interpolate_chroma`: interpolate each of the 12 chroma
bins (`chroma[i]` for `i in range(12)`; a missing row is an `IndexError`,
modelled as `none`) onto the target length. -/
def interpolate_chroma (chroma : List (List ℚ)) (target_length : ℕ) : Option (List (List ℚ)) :=
  if arrCols chroma = target_length then some chroma
  else optMap (fun i =>
    (chroma.get? i).bind fun row =>
    npInterp (linspace01 target_length) (linspace01 (arrCols chroma)) row)
    (List.range 12)

/-- `AudioAnalyzer._interpolate_2d`: interpolate every row (feature) of a
`features × frames` array onto the target length. -/
def interpolate_2d (data : List (List ℚ)) (target_length : ℕ) : Option (List (List ℚ)) :=
  if arrCols data = target_length then some data
  else optMap (fun row => npInterp (linspace01 target_length) (linspace01 (arrCols data)) row) data

/-- `AudioAnalyzer._detect_mode`: music vs speech heuristic. `onset_std`
(`np.std(onset_env)`) and `spec_bw` (librosa spectral bandwidth of a short
prefix, `2000` on exception) are numeric inputs computed at the float /
library boundary. -/
def detect_mode (tempo onset_std spec_bw : ℚ) : String :=
  if tempo > 60 ∧ onset_std > 1/10 ∧ spec_bw > 2000 then "music" else "speech"

/-- numpy `np.mean` of one row; numpy yields `nan` on an empty row, and
`np.argmax` then picks index 0, which the `0` returned here replicates. -/
def listMean (l : List ℚ) : ℚ := l.sum / l.length

/-- numpy `np.argmax`: index of the first occurrence of the maximum. -/
def argmaxIdx : List ℚ → ℕ
  | [] => 0
  | x :: xs => if ∀ y ∈ xs, y ≤ x then 0 else argmaxIdx xs + 1

/-- The `keys` list of `_estimate_key` (analyzer.py line 374), the twelve
pitch-class names in sharp spelling. -/
def keyNames : List String :=
  ["C", "C#", "D", "D#", "E", "F"] ++ ["F#", "G", "G#", "A", "A#", "B"]

/-- `AudioAnalyzer._estimate_key`: average the chroma over time and name
the strongest pitch class. -/
def estimate_key (chroma : List (List ℚ)) : String :=
  let chroma_avg := chroma.map listMean
  (keyNames.getD (argmaxIdx chroma_avg) "C") ++ " major"

/-- Schema of `AudioFeatures` (src/src/types.py): the FeatureTimeline. -/
structure AudioFeatures where
  duration : ℚ
  sample_rate : ℕ
  fps : ℕ
  rms : List ℚ
  onset : List ℚ
  spectral_centroid : List ℚ
  spectral_rolloff : List ℚ
  zero_crossing_rate : List ℚ
  chroma : List (List ℚ)
  mfcc : List (List ℚ)
  tempogram : List (List ℚ)
  tempo : ℚ
  key : Option String
  mode : String
deriving DecidableEq

/-- `AudioFeatures.frame_count` (types.py line 22): `int(self.duration * self.fps)`. -/
def AudioFeatures.frame_count (f : AudioFeatures) : ℕ := natFloor (f.duration * f.fps)

/-- Values of the `mode` literal type of `AudioFeatures` (types.py line 39). -/
def allowed_modes : List String := ["music", "speech", "hybrid"]

/-- Raw outputs of the external audio-analysis capability (the librosa
calls in `_extract_features`), as handed to the shaping/resampling code:
`rms`, `onset_env`, the spectral per-frame arrays, the chroma / mfcc /
tempogram matrices, the tracked `tempo`, plus the two scalars consumed by
`_detect_mode`. -/
structure RawFeatures where
  rms : List ℚ
  onset_env : List ℚ
  spec_cent : List ℚ
  spec_roll : List ℚ
  zcr : List ℚ
  chroma : List (List ℚ)
  mfcc : List (List ℚ)
  tempogram : List (List ℚ)
  tempo : ℚ
  onset_std : ℚ
  spec_bw : ℚ
deriving DecidableEq

/-- `AudioAnalyzer._extract_features` (analyzer.py lines 167-299) from the
librosa outputs onward: normalize `rms`/`onset`, detect mode and key,
compute `target_frames = int(duration * fps)`, and resample every
per-frame array and matrix onto that frame count (the spectral arrays are
normalized after interpolation, `rms`/`onset` before). -/
def extract_features (duration : ℚ) (sr : ℕ) (fps : ℕ) (raw : RawFeatures) :
    Option AudioFeatures :=
  let mode := detect_mode raw.tempo raw.onset_std raw.spec_bw
  let key : Option String := if duration < 600 then some (estimate_key raw.chroma) else none
  let target_frames := natFloor (duration * fps)
  (normalize raw.rms).bind fun rms =>
  (normalize raw.onset_env).bind fun onset =>
  (interpolate_to_length rms target_frames).bind fun rms_t =>
  (interpolate_to_length onset target_frames).bind fun onset_t =>
  (interpolate_to_length raw.spec_cent target_frames).bind fun cent_i =>
  (normalize cent_i).bind fun cent_t =>
  (interpolate_to_length raw.spec_roll target_frames).bind fun roll_i =>
  (normalize roll_i).bind fun roll_t =>
  (interpolate_to_length raw.zcr target_frames).bind fun zcr_i =>
  (normalize zcr_i).bind fun zcr_t =>
  ((if arrCols raw.chroma = target_frames then some raw.chroma
    else interpolate_chroma raw.chroma target_frames)).bind fun chroma_t =>
  ((if arrCols raw.mfcc = target_frames then some raw.mfcc
    else interpolate_2d raw.mfcc target_frames)).bind fun mfcc_t =>
  ((if arrCols raw.tempogram = target_frames then some raw.tempogram
    else interpolate_2d raw.tempogram target_frames)).bind fun tempogram_t =>
  some
    { duration := duration
      sample_rate := sr
      fps := fps
      rms := rms_t
      onset := onset_t
      spectral_centroid := cent_t
      spectral_rolloff := roll_t
      zero_crossing_rate := zcr_t
      chroma := chroma_t
      mfcc := mfcc_t
      tempogram := tempogram_t
      tempo := raw.tempo
      key := key
      mode := mode }

/-- Tail of `_extract_features` (analyzer.py lines 301-303): the computed
features are handed to `self._save_cache(cache_path, features)` and then
returned. Neither `_save_cache` (lines 377-390) nor this call site has a
`try`/`except`, so an exception raised while persisting propagates to the
caller of `analyze` instead of being swallowed. The cache store's write is
the `save` parameter (filesystem boundary). -/
def save_and_return (features : AudioFeatures)
    (save : AudioFeatures → Except String Unit) : Except String AudioFeatures :=
  match save features with
  | Except.ok _ => Except.ok features
  | Except.error e => Except.error e

/-! ### RenderPipeline (src/src/pipeline.py) -/

/-- Fractions handed to `progress_callback` inside the Encoding frame loop
of `RenderPipeline._render_video` (pipeline.py lines 158-174): at frame `i`
a report `(i + 1) / frame_count` is made when `i % 30 == 0` or
`i == frame_count - 1`. -/
def render_progress (frame_count : ℕ) : List ℚ :=
  ((List.range frame_count).filter fun i => i % 30 == 0 || i == frame_count - 1).map
    fun (i : ℕ) => ((i : ℚ) + 1) / (frame_count : ℚ)

/-- Every fraction handed to a supplied `progress_callback` over one
`RenderPipeline.run`: the `0.0` before the loop (pipeline.py line 148), the
in-loop reports, then the final `1.0` from `run` (line 93). -/
def run_progress (frame_count : ℕ) : List ℚ :=
  0 :: render_progress frame_count ++ [1]

/-- Frames produced by the Encoding loop of `_render_video` (pipeline.py
lines 158-166): every frame is obtained by calling
`visualizer.render_frame(i)` directly and then post-processed.
`self.parallel` is read in `_render_video` only for the log message at
line 146 and never selects a different frame source, so it is an unused
argument here. -/
def render_video_frames {α : Type} (parallel : Bool) (render_frame : ℕ → α)
    (post : α → α) (frame_count : ℕ) : List α :=
  (List.range frame_count).map fun i => post (render_frame i)

/-- Step 3 of `RenderPipeline.run` (pipeline.py lines 85-88): in preview
mode the pipeline assigns `features.duration = min(preview_duration,
features.duration)` on the very `AudioFeatures` object returned by
`analyze` (the object is a plain mutable pydantic model). -/
def run_preview_clamp (preview_mode : Bool) (preview_duration : ℚ)
    (features : AudioFeatures) : AudioFeatures :=
  if preview_mode then { features with duration := min preview_duration features.duration }
  else features

/-- `VisualConfig` (types.py lines 42-48), restricted to the fields the
preview path reads and writes. -/
structure VisualConfig where
  type : String
  resolution : ℕ × ℕ
  fps : ℕ
deriving DecidableEq

/-- Application settings consumed by `PreviewPipeline.run`
(src/src/settings.py accessors used at pipeline.py lines 241-242). -/
structure Settings where
  preview_resolution : ℕ × ℕ
  preview_fps : ℕ
  default_preview_duration : ℚ

/-- `PreviewPipeline.run` (pipeline.py lines 225-253) as a transformer of
the caller's `config.visual`: save the original resolution and fps,
substitute the preview settings, run the inherited pipeline (the `inner`
parameter, which may itself update the config and may raise), and restore
the two saved fields in a `finally` block on both exit paths. -/
def preview_run (settings : Settings)
    (inner : VisualConfig → VisualConfig × Except String Unit)
    (config : VisualConfig) : VisualConfig × Except String Unit :=
  let original_resolution := config.resolution
  let original_fps := config.fps
  let preview_config :=
    { config with
      resolution := settings.preview_resolution
      fps := settings.preview_fps }
  let res := inner preview_config
  ({ res.1 with resolution := original_resolution, fps := original_fps }, res.2)

/-! ### ParallelRenderer (src/src/parallel_renderer.py) -/

/-- Fuel-indexed chunking; with fuel at least the list's length and a
positive chunk size it yields the slices `l[i:i+k]` of the Python batch
comprehension (`for i in range(0, len(l), k)`). Python's `range` raises
for step `0`; that case is excluded by hypothesis wherever this is used. -/
def chunkListFuel (k : ℕ) : ℕ → List α → List (List α)
  | 0, _ => []
  | _, [] => []
  | fuel + 1, l => l.take k :: chunkListFuel k fuel (l.drop k)

/-- Batch partition of `render_frames_parallel` (parallel_renderer.py
lines 95-98): contiguous chunks of size `chunk_size`. -/
def chunkList (l : List α) (k : ℕ) : List (List α) := chunkListFuel k l.length l

/-- `ParallelRenderer._render_batch` (parallel_renderer.py line 141):
render every index of one batch, keeping the index with the frame. -/
def render_batch {α : Type} (render_func : ℕ → α) (frame_indices : List ℕ) :
    List (ℕ × α) :=
  frame_indices.map fun idx => (idx, render_func idx)

instance {α : Type} : DecidableRel (fun (a b : ℕ × α) => a.1 ≤ b.1) :=
  fun a b => Nat.decLe a.1 b.1

instance {α : Type} : IsTotal (ℕ × α) (fun a b => a.1 ≤ b.1) :=
  ⟨fun a b => Nat.le_total a.1 b.1⟩

instance {α : Type} : IsTrans (ℕ × α) (fun a b => a.1 ≤ b.1) :=
  ⟨fun _ _ _ => Nat.le_trans⟩

/-- Python's stable `results.sort(key=lambda x: x[0])` (parallel_renderer.py
line 133), modelled by a stable sort on the frame index. -/
def sort_by_frame_index {α : Type} (results : List (ℕ × α)) : List (ℕ × α) :=
  List.insertionSort (fun a b => a.1 ≤ b.1) results

/-- `ParallelRenderer.render_frames_parallel` (parallel_renderer.py lines
69-135). An empty index list returns immediately; a short job (fewer than
`chunk_size * 2` indices) or a single-worker pool renders serially
in-process, returning pairs in input order; otherwise the batches are
submitted to the pool, collected with `as_completed` in a nondeterministic
completion order (the `completion_order` parameter: a permutation of the
batch positions), concatenated, and sorted by frame index. A worker
exception aborts the whole call, so only complete result sets are
modelled. -/
def render_frames_parallel {α : Type} (render_func : ℕ → α)
    (frame_indices : List ℕ) (chunk_size : ℕ) (num_workers : ℕ)
    (completion_order : List ℕ) : List (ℕ × α) :=
  if frame_indices.length = 0 then []
  else if frame_indices.length < chunk_size * 2 ∨ num_workers = 1 then
    frame_indices.map fun idx => (idx, render_func idx)
  else
    let batches := chunkList frame_indices chunk_size
    let results :=
      (completion_order.map fun b => render_batch render_func (batches.getD b [])).flatten
    sort_by_frame_index results

/-! ### PostProcessor (src/src/postprocess.py) -/

/-- One 8-bit RGB pixel (r, g, b). -/
abbrev Pixel : Type := ℕ × ℕ × ℕ

/-- An in-memory pixel buffer: rows of pixels (`H × W × 3` uint8 array). -/
abbrev Frame : Type := List (List Pixel)

/-- numpy `np.clip(v, 0, 255)` followed by `.astype(np.uint8)`. -/
def clip_byte (q : ℚ) : ℕ := natFloor (max 0 (min q 255))

/-- Film grain on one row (`PostProcessor._apply_grain`, postprocess.py
lines 106-110): add the sampled noise to every channel, clip to
`[0, 255]`, cast back to uint8. `noise r c ch` is the realization of
`np.random.normal(0, grain_intensity * 50, frame.shape)` at that position
(the randomness boundary). -/
def grain_row (noise : ℕ → ℕ → ℕ → ℚ) (r : ℕ) : ℕ → List Pixel → List Pixel
  | _, [] => []
  | c, p :: rest =>
    (clip_byte ((p.1 : ℚ) + noise r c 0),
     clip_byte ((p.2.1 : ℚ) + noise r c 1),
     clip_byte ((p.2.2 : ℚ) + noise r c 2)) :: grain_row noise r (c + 1) rest

/-- Row recursion of `_apply_grain` over the whole frame. -/
def grain_rows (noise : ℕ → ℕ → ℕ → ℚ) : ℕ → Frame → Frame
  | _, [] => []
  | r, row :: rest => grain_row noise r 0 row :: grain_rows noise (r + 1) rest

/-- `PostProcessor._apply_grain`. The `grain_intensity` argument only
scales the noise distribution, which is already folded into the sampled
`noise` values. -/
def apply_grain (grain_intensity : ℚ) (noise : ℕ → ℕ → ℕ → ℚ) (frame : Frame) : Frame :=
  grain_rows noise 0 frame

/-- Radial mask of `PostProcessor._apply_vignette` (postprocess.py lines
117-126) at row `r`, column `c`: `1 - (dist / max_dist) * vignette`,
clipped to `[0.3, 1.0]`. `sqrtFn` stands for the float `np.sqrt`. -/
def vignette_mask (vignette : ℚ) (sqrtFn : ℚ → ℚ) (cx cy : ℕ) (max_dist : ℚ)
    (r c : ℕ) : ℚ :=
  let dist := sqrtFn (((c : ℚ) - (cx : ℚ)) ^ 2 + ((r : ℚ) - (cy : ℚ)) ^ 2)
  max (3/10) (min (1 - dist / max_dist * vignette) 1)

/-- Vignette applied to one pixel: multiply each channel by the mask and
truncate back to uint8 (`(frame * vignette[:, :, np.newaxis]).astype(np.uint8)`). -/
def vignette_pixel (m : ℚ) (p : Pixel) : Pixel :=
  (natFloor ((p.1 : ℚ) * m), natFloor ((p.2.1 : ℚ) * m), natFloor ((p.2.2 : ℚ) * m))

/-- Column recursion of `_apply_vignette` over one row. -/
def vignette_row (vignette : ℚ) (sqrtFn : ℚ → ℚ) (cx cy : ℕ) (max_dist : ℚ)
    (r : ℕ) : ℕ → List Pixel → List Pixel
  | _, [] => []
  | c, p :: rest =>
    vignette_pixel (vignette_mask vignette sqrtFn cx cy max_dist r c) p ::
      vignette_row vignette sqrtFn cx cy max_dist r (c + 1) rest

/-- Row recursion of `_apply_vignette` over the whole frame. -/
def vignette_rows (vignette : ℚ) (sqrtFn : ℚ → ℚ) (cx cy : ℕ) (max_dist : ℚ) :
    ℕ → Frame → Frame
  | _, [] => []
  | r, row :: rest =>
    vignette_row vignette sqrtFn cx cy max_dist r 0 row ::
      vignette_rows vignette sqrtFn cx cy max_dist (r + 1) rest

/-- `PostProcessor._apply_vignette` (postprocess.py lines 112-129): center
at `(h // 2, w // 2)`, distances normalized by the corner distance
`sqrt(cx² + cy²)` (for a 1×1 frame `max_dist` is `0` and the float code
divides by zero; rational division by zero yields `0` here and the clip
step bounds the mask either way). -/
def apply_vignette (vignette : ℚ) (sqrtFn : ℚ → ℚ) (frame : Frame) : Frame :=
  let h := frame.length
  let w := (frame.headD []).length
  let cy := h / 2
  let cx := w / 2
  let max_dist := sqrtFn ((cx : ℚ) ^ 2 + (cy : ℚ) ^ 2)
  vignette_rows vignette sqrtFn cx cy max_dist 0 frame

/-- `PostProcessor._apply_chromatic_aberration` (postprocess.py lines
131-147): `shift = int(chromatic * 3)`; zero shift is the identity,
otherwise the red channel of columns `0 .. w-shift-1` is taken `shift`
columns to the right (`result[:, :-shift, 0] = frame[:, shift:, 0]`) and
the blue channel of columns `shift .. w-1` is taken `shift` columns to the
left (`result[:, shift:, 2] = frame[:, :-shift, 2]`); green and the
remaining border columns keep their original values. -/
def apply_chromatic_aberration (chromatic : ℚ) (frame : Frame) : Frame :=
  let w := (frame.headD []).length
  let shift := natFloor (chromatic * 3)
  if shift = 0 then frame
  else
    frame.map fun row =>
      (List.range w).map fun j =>
        let p := row.getD j (0, 0, 0)
        ((if j + shift < w then (row.getD (j + shift) (0, 0, 0)).1 else p.1),
         p.2.1,
         (if shift ≤ j then (row.getD (j - shift) (0, 0, 0)).2.2 else p.2.2))

/-- State of a constructed `PostProcessor` (postprocess.py lines 25-33):
the six scalar parameters and the optional LUT, plus the three PIL
`ImageEnhance` operations (`Contrast`, `Color`, `Brightness`) used by
`apply`, which belong to the external image library and are therefore
function-valued fields at the boundary. -/
structure PostProcessor where
  contrast : ℚ
  saturation : ℚ
  brightness : ℚ
  grain_intensity : ℚ
  chromatic : ℚ
  vignette : ℚ
  lut : Option (List (ℚ × ℚ × ℚ))
  enh_contrast : ℚ → Frame → Frame
  enh_color : ℚ → Frame → Frame
  enh_brightness : ℚ → Frame → Frame

/-- `PostProcessor.apply` (postprocess.py lines 61-104): contrast,
saturation and brightness via PIL, each skipped when its factor is `1.0`;
then grain, vignette and chromatic aberration, each skipped when its
parameter is not `> 0`. The PIL round-trips `Image.fromarray` /
`np.array` are the identity on uint8 RGB data. The loaded LUT is never
consulted by `apply`. -/
def PostProcessor.apply (pp : PostProcessor) (noise : ℕ → ℕ → ℕ → ℚ)
    (sqrtFn : ℚ → ℚ) (frame : Frame) : Frame :=
  let img := frame
  let img := if pp.contrast ≠ 1 then pp.enh_contrast pp.contrast img else img
  let img := if pp.saturation ≠ 1 then pp.enh_color pp.saturation img else img
  let img := if pp.brightness ≠ 1 then pp.enh_brightness pp.brightness img else img
  let result := img
  let result := if pp.grain_intensity > 0 then apply_grain pp.grain_intensity noise result else result
  let result := if pp.vignette > 0 then apply_vignette pp.vignette sqrtFn result else result
  let result := if pp.chromatic > 0 then apply_chromatic_aberration pp.chromatic result else result
  result

/-- Well-formedness of a frame: `h` rows, each of `w` pixels, every
channel an 8-bit value. -/
def WFFrame (h w : ℕ) (frame : Frame) : Prop :=
  frame.length = h ∧ ∀ row ∈ frame, row.length = w ∧
    ∀ p ∈ row, p.1 ≤ 255 ∧ p.2.1 ≤ 255 ∧ p.2.2 ≤ 255

instance (h w : ℕ) (frame : Frame) : Decidable (WFFrame h w frame) :=
  inferInstanceAs (Decidable (_ ∧ _))

/-! ### Shared concrete inputs for witnesses and counterexamples -/

/-- Concrete librosa outputs of a small valid audio clip (every per-frame
array nonempty, chroma 12 × 2, mfcc 13 × 2). -/
def rawSmall : RawFeatures :=
  { rms := [0, 1]
    onset_env := [0, 1]
    spec_cent := [0, 1]
    spec_roll := [0, 1]
    zcr := [0, 1]
    chroma := List.replicate 12 [0, 1]
    mfcc := List.replicate 13 [0, 1]
    tempogram := [[0, 1]]
    tempo := 120
    onset_std := 1
    spec_bw := 2500 }

/-- The FeatureTimeline `extract_features` computes from `rawSmall` at
duration 2.9 s and 1 fps (`target_frames = int(2.9) = 2`). -/
def featuresSmall : AudioFeatures :=
  { duration := 29/10
    sample_rate := 44100
    fps := 1
    rms := [0, 1]
    onset := [0, 1]
    spectral_centroid := [0, 1]
    spectral_rolloff := [0, 1]
    zero_crossing_rate := [0, 1]
    chroma := List.replicate 12 [0, 1]
    mfcc := List.replicate 13 [0, 1]
    tempogram := [[0, 1]]
    tempo := 120
    key := some "C major"
    mode := "music" }

/-- `PostProcessor` state used by the C9 witness: every effect active,
identity PIL enhancers. -/
def ppC9 : PostProcessor :=
  { contrast := 2, saturation := 1/2, brightness := 3/2, grain_intensity := 1,
    chromatic := 1, vignette := 1/2, lut := none,
    enh_contrast := fun _ g => g, enh_color := fun _ g => g,
    enh_brightness := fun _ g => g }

/-- Concrete 1 × 2 frame for the C9 witness. -/
def frameC9 : Frame := [[(0, 10, 255), (255, 0, 7)]]

/-- Concrete evaluation of the analyzer on `rawSmall`. -/
theorem extract_features_rawSmall :
    extract_features (29/10) 44100 1 rawSmall = some featuresSmall := by
  have ht : Int.toNat 2 = 2 := rfl
  norm_num [extract_features, rawSmall, featuresSmall, normalize, List.min?, List.max?,
    List.foldl, min_def, max_def, interpolate_to_length, natFloor, ht, arrCols,
    detect_mode, estimate_key, listMean, argmaxIdx, List.replicate]
  rfl

/-! ### Theorems -/

/-- Length of `np.linspace(0, 1, n)`. -/
theorem linspace01_length (n : ℕ) : (linspace01 n).length = n := by
  rcases n with _ | _ | m
  · rfl
  · rfl
  · show ((List.range (m + 2)).map fun (i : ℕ) => (i : ℚ) / ((m : ℚ) + 1)).length = m + 2
    rw [List.length_map, List.length_range]

/-- A successful `np.interp` returns one value per query point. -/
theorem npInterp_length (xnew xp fp r : List ℚ) (h : npInterp xnew xp fp = some r) :
    r.length = xnew.length := by
  unfold npInterp at h
  split at h
  · cases h
  · injection h with h2
    rw [← h2]
    simp

/-- `_normalize` preserves the array length. -/
theorem normalize_length (x r : List ℚ) (h : normalize x = some r) :
    r.length = x.length := by
  simp only [normalize, Option.bind_eq_some] at h
  obtain ⟨mn, hmn, mx, hmx, h⟩ := h
  split at h <;> injection h with h2 <;> rw [← h2] <;> simp

/-- A successful `_interpolate_to_length` returns the target length. -/
theorem interpolate_to_length_length (data : List ℚ) (t : ℕ) (r : List ℚ)
    (h : interpolate_to_length data t = some r) : r.length = t := by
  by_cases hc : data.length = t
  · simp only [interpolate_to_length, hc, if_pos] at h
    injection h with h2
    rw [← h2]
    exact hc
  · simp only [interpolate_to_length, hc, if_neg, if_false] at h
    rw [npInterp_length _ _ _ _ h, linspace01_length]

/-- A successful loop over a list produces one result per element. -/
theorem optMap_length (g : α → Option β) :
    ∀ (l : List α) (r : List β), optMap g l = some r → r.length = l.length := by
  intro l
  induction l with
  | nil =>
    intro r h
    injection h with h2
    rw [← h2]
    rfl
  | cons a as ih =>
    intro r h
    simp only [optMap, Option.bind_eq_some, Option.some.injEq] at h
    obtain ⟨b, _, bs, hbs, hr⟩ := h
    rw [← hr]
    simp [ih bs hbs]

/-- Every result of a successful loop comes from some element of the list. -/
theorem optMap_mem (g : α → Option β) :
    ∀ (l : List α) (r : List β), optMap g l = some r →
      ∀ b ∈ r, ∃ a ∈ l, g a = some b := by
  intro l
  induction l with
  | nil =>
    intro r h b hb
    injection h with h2
    rw [← h2] at hb
    cases hb
  | cons a as ih =>
    intro r h b hb
    simp only [optMap, Option.bind_eq_some, Option.some.injEq] at h
    obtain ⟨b0, hb0, bs, hbs, hr⟩ := h
    rw [← hr] at hb
    rcases List.mem_cons.mp hb with hb | hb
    · exact ⟨a, List.mem_cons_self a as, hb ▸ hb0⟩
    · obtain ⟨a', ha', hga'⟩ := ih bs hbs b hb
      exact ⟨a', List.mem_cons_of_mem a ha', hga'⟩

/-- The `mode` of a computed FeatureTimeline is exactly the `_detect_mode`
verdict. -/
theorem extract_features_mode (duration : ℚ) (sr fps : ℕ) (raw : RawFeatures)
    (f : AudioFeatures) (h : extract_features duration sr fps raw = some f) :
    f.mode = detect_mode raw.tempo raw.onset_std raw.spec_bw := by
  simp only [extract_features, Option.bind_eq_some, Option.some.injEq] at h
  obtain ⟨rms, _, onset, _, rms_t, _, onset_t, _, cent_i, _, cent_t, _, roll_i, _,
    roll_t, _, zcr_i, _, zcr_t, _, chroma_t, _, mfcc_t, _, tg_t, _, hf⟩ := h
  subst hf
  rfl

/-- Truncation of a rational below a natural stays below it. -/
theorem natFloor_le (q : ℚ) (n : ℕ) (h : q ≤ (n : ℚ)) : natFloor q ≤ n := by
  unfold natFloor
  rw [Int.toNat_le]
  calc ⌊q⌋ ≤ ⌊(n : ℚ)⌋ := Int.floor_le_floor h
    _ = n := Int.floor_natCast n

/-- Clipping to `[0, 255]` and casting to uint8 stays 8-bit. -/
theorem clip_byte_le (q : ℚ) : clip_byte q ≤ 255 := by
  unfold clip_byte
  apply natFloor_le
  push_cast
  exact max_le (by norm_num) (min_le_right _ _)

/-- The vignette mask is clamped below 1. -/
theorem vignette_mask_le_one (v : ℚ) (s : ℚ → ℚ) (cx cy : ℕ) (md : ℚ) (r c : ℕ) :
    vignette_mask v s cx cy md r c ≤ 1 := by
  unfold vignette_mask
  exact max_le (by norm_num) (min_le_right _ _)

/-- The vignette mask is clamped above 0 (its floor is 0.3). -/
theorem vignette_mask_nonneg (v : ℚ) (s : ℚ → ℚ) (cx cy : ℕ) (md : ℚ) (r c : ℕ) :
    0 ≤ vignette_mask v s cx cy md r c :=
  le_trans (by norm_num) (le_max_left _ _)

/-- Multiplying an 8-bit channel by a mask in `[0, 1]` and truncating
stays 8-bit. -/
theorem vignette_channel_le (x : ℕ) (m : ℚ) (hx : x ≤ 255) (hm0 : 0 ≤ m)
    (hm1 : m ≤ 1) : natFloor ((x : ℚ) * m) ≤ 255 := by
  apply natFloor_le
  calc (x : ℚ) * m ≤ (x : ℚ) * 1 :=
        mul_le_mul_of_nonneg_left hm1 (by positivity)
    _ = (x : ℚ) := mul_one _
    _ ≤ ((255 : ℕ) : ℚ) := by exact_mod_cast hx

/-- Vignetting one pixel preserves 8-bit channels. -/
theorem vignette_pixel_le (m : ℚ) (hm0 : 0 ≤ m) (hm1 : m ≤ 1) (p : Pixel)
    (hp : p.1 ≤ 255 ∧ p.2.1 ≤ 255 ∧ p.2.2 ≤ 255) :
    (vignette_pixel m p).1 ≤ 255 ∧ (vignette_pixel m p).2.1 ≤ 255 ∧
      (vignette_pixel m p).2.2 ≤ 255 :=
  ⟨vignette_channel_le _ _ hp.1 hm0 hm1, vignette_channel_le _ _ hp.2.1 hm0 hm1,
   vignette_channel_le _ _ hp.2.2 hm0 hm1⟩

/-- Grain preserves the row length. -/
theorem grain_row_length (noise : ℕ → ℕ → ℕ → ℚ) (r : ℕ) :
    ∀ (c : ℕ) (row : List Pixel), (grain_row noise r c row).length = row.length := by
  intro c row
  induction row generalizing c with
  | nil => rfl
  | cons p ps ih => simp [grain_row, ih]

/-- Grain keeps every channel 8-bit. -/
theorem grain_row_channels (noise : ℕ → ℕ → ℕ → ℚ) (r : ℕ) :
    ∀ (c : ℕ) (row : List Pixel) (p : Pixel), p ∈ grain_row noise r c row →
      p.1 ≤ 255 ∧ p.2.1 ≤ 255 ∧ p.2.2 ≤ 255 := by
  intro c row
  induction row generalizing c with
  | nil =>
    intro p hp
    cases hp
  | cons q qs ih =>
    intro p hp
    rcases List.mem_cons.mp hp with h | h
    · rw [h]
      exact ⟨clip_byte_le _, clip_byte_le _, clip_byte_le _⟩
    · exact ih (c + 1) p h

/-- Grain preserves the number of rows. -/
theorem grain_rows_length (noise : ℕ → ℕ → ℕ → ℚ) :
    ∀ (r : ℕ) (fr : Frame), (grain_rows noise r fr).length = fr.length := by
  intro r fr
  induction fr generalizing r with
  | nil => rfl
  | cons row rest ih => simp [grain_rows, ih]

/-- Every grained row is the grain image of a source row. -/
theorem grain_rows_rows (noise : ℕ → ℕ → ℕ → ℚ) :
    ∀ (r : ℕ) (fr : Frame) (row' : List Pixel), row' ∈ grain_rows noise r fr →
      ∃ r' row, row ∈ fr ∧ row' = grain_row noise r' 0 row := by
  intro r fr
  induction fr generalizing r with
  | nil =>
    intro row' h
    cases h
  | cons row rest ih =>
    intro row' h
    rcases List.mem_cons.mp h with h | h
    · exact ⟨r, row, List.mem_cons_self _ _, h⟩
    · obtain ⟨r', row0, hmem, heq⟩ := ih (r + 1) row' h
      exact ⟨r', row0, List.mem_cons_of_mem _ hmem, heq⟩

/-- `_apply_grain` preserves frame well-formedness. -/
theorem apply_grain_WF (gi : ℚ) (noise : ℕ → ℕ → ℕ → ℚ) (h w : ℕ) (frame : Frame)
    (hf : WFFrame h w frame) : WFFrame h w (apply_grain gi noise frame) := by
  obtain ⟨hlen, hrows⟩ := hf
  constructor
  · rw [apply_grain, grain_rows_length]
    exact hlen
  · intro row' hrow'
    rw [apply_grain] at hrow'
    obtain ⟨r', row, hrowmem, hroweq⟩ := grain_rows_rows noise 0 frame row' hrow'
    subst hroweq
    obtain ⟨hrl, _⟩ := hrows row hrowmem
    exact ⟨by rw [grain_row_length]; exact hrl,
      fun p hp => grain_row_channels noise r' 0 row p hp⟩

/-- Vignetting preserves the row length. -/
theorem vignette_row_length (v : ℚ) (s : ℚ → ℚ) (cx cy : ℕ) (md : ℚ) (r : ℕ) :
    ∀ (c : ℕ) (row : List Pixel),
      (vignette_row v s cx cy md r c row).length = row.length := by
  intro c row
  induction row generalizing c with
  | nil => rfl
  | cons p ps ih => simp [vignette_row, ih]

/-- Vignetting keeps every channel 8-bit. -/
theorem vignette_row_channels (v : ℚ) (s : ℚ → ℚ) (cx cy : ℕ) (md : ℚ) (r : ℕ) :
    ∀ (c : ℕ) (row : List Pixel),
      (∀ q ∈ row, q.1 ≤ 255 ∧ q.2.1 ≤ 255 ∧ q.2.2 ≤ 255) →
      ∀ p ∈ vignette_row v s cx cy md r c row,
        p.1 ≤ 255 ∧ p.2.1 ≤ 255 ∧ p.2.2 ≤ 255 := by
  intro c row
  induction row generalizing c with
  | nil =>
    intro _ p hp
    cases hp
  | cons q qs ih =>
    intro hall p hp
    rcases List.mem_cons.mp hp with h | h
    · rw [h]
      exact vignette_pixel_le _ (vignette_mask_nonneg v s cx cy md r c)
        (vignette_mask_le_one v s cx cy md r c) q
        (hall q (List.mem_cons_self _ _))
    · exact ih (c + 1) (fun q' hq' => hall q' (List.mem_cons_of_mem _ hq')) p h

/-- Vignetting preserves the number of rows. -/
theorem vignette_rows_length (v : ℚ) (s : ℚ → ℚ) (cx cy : ℕ) (md : ℚ) :
    ∀ (r : ℕ) (fr : Frame), (vignette_rows v s cx cy md r fr).length = fr.length := by
  intro r fr
  induction fr generalizing r with
  | nil => rfl
  | cons row rest ih => simp [vignette_rows, ih]

/-- Every vignetted row is the vignette image of a source row. -/
theorem vignette_rows_rows (v : ℚ) (s : ℚ → ℚ) (cx cy : ℕ) (md : ℚ) :
    ∀ (r : ℕ) (fr : Frame) (row' : List Pixel),
      row' ∈ vignette_rows v s cx cy md r fr →
      ∃ r' row, row ∈ fr ∧ row' = vignette_row v s cx cy md r' 0 row := by
  intro r fr
  induction fr generalizing r with
  | nil =>
    intro row' h
    cases h
  | cons row rest ih =>
    intro row' h
    rcases List.mem_cons.mp h with h | h
    · exact ⟨r, row, List.mem_cons_self _ _, h⟩
    · obtain ⟨r', row0, hmem, heq⟩ := ih (r + 1) row' h
      exact ⟨r', row0, List.mem_cons_of_mem _ hmem, heq⟩

/-- `_apply_vignette` preserves frame well-formedness. -/
theorem apply_vignette_WF (v : ℚ) (sqrtFn : ℚ → ℚ) (h w : ℕ) (frame : Frame)
    (hf : WFFrame h w frame) : WFFrame h w (apply_vignette v sqrtFn frame) := by
  obtain ⟨hlen, hrows⟩ := hf
  constructor
  · rw [apply_vignette, vignette_rows_length]
    exact hlen
  · intro row' hrow'
    rw [apply_vignette] at hrow'
    obtain ⟨r', row, hrowmem, hroweq⟩ := vignette_rows_rows _ _ _ _ _ 0 frame row' hrow'
    subst hroweq
    obtain ⟨hrl, hrp⟩ := hrows row hrowmem
    exact ⟨by rw [vignette_row_length]; exact hrl,
      vignette_row_channels _ _ _ _ _ r' 0 row hrp⟩

/-- Positional pixel reads with the zero default stay 8-bit. -/
theorem getD_channels (row : List Pixel) (j : ℕ)
    (hall : ∀ q ∈ row, q.1 ≤ 255 ∧ q.2.1 ≤ 255 ∧ q.2.2 ≤ 255) :
    (row.getD j (0, 0, 0)).1 ≤ 255 ∧ (row.getD j (0, 0, 0)).2.1 ≤ 255 ∧
      (row.getD j (0, 0, 0)).2.2 ≤ 255 := by
  rw [List.getD_eq_getElem?_getD]
  cases hj : row[j]? with
  | none => exact ⟨by decide, by decide, by decide⟩
  | some q => simpa using hall q (List.getElem?_mem hj)

/-- `_apply_chromatic_aberration` preserves frame well-formedness. -/
theorem apply_chromatic_WF (ch : ℚ) (h w : ℕ) (frame : Frame)
    (hf : WFFrame h w frame) : WFFrame h w (apply_chromatic_aberration ch frame) := by
  obtain ⟨hlen, hrows⟩ := hf
  unfold apply_chromatic_aberration
  dsimp only
  split
  · exact ⟨hlen, hrows⟩
  · constructor
    · rw [List.length_map]
      exact hlen
    · intro row' hrow'
      obtain ⟨row, hrowmem, hroweq⟩ := List.mem_map.mp hrow'
      subst hroweq
      obtain ⟨hrl, hrp⟩ := hrows row hrowmem
      constructor
      · rw [List.length_map, List.length_range]
        cases frame with
        | nil => cases hrowmem
        | cons r0 rs => exact (hrows r0 (List.mem_cons_self _ _)).1
      · intro p hp
        obtain ⟨j, _, hj⟩ := List.mem_map.mp hp
        rw [← hj]
        dsimp only
        refine ⟨?_, (getD_channels row j hrp).2.1, ?_⟩
        · split
          · exact (getD_channels row _ hrp).1
          · exact (getD_channels row _ hrp).1
        · split
          · exact (getD_channels row _ hrp).2.2
          · exact (getD_channels row _ hrp).2.2

/-- Branching between two well-formed frames stays well-formed. -/
theorem WF_ite (h w : ℕ) (c : Prop) [Decidable c] (t e : Frame)
    (ht : WFFrame h w t) (he : WFFrame h w e) : WFFrame h w (if c then t else e) := by
  split
  · exact ht
  · exact he

/-- C9: for every well-formed `h × w × 3` 8-bit input frame and every
parameter configuration, `PostProcessor.apply` returns a frame of the same
shape with every channel in `[0, 255]`, provided the three PIL
enhancement operations respect the 8-bit image format (which the PIL
image type guarantees). -/
theorem C9_apply_preserves_frame_wellformedness (pp : PostProcessor)
    (noise : ℕ → ℕ → ℕ → ℚ) (sqrtFn : ℚ → ℚ) (h w : ℕ) (frame : Frame)
    (hec : ∀ q g, WFFrame h w g → WFFrame h w (pp.enh_contrast q g))
    (heco : ∀ q g, WFFrame h w g → WFFrame h w (pp.enh_color q g))
    (heb : ∀ q g, WFFrame h w g → WFFrame h w (pp.enh_brightness q g))
    (hf : WFFrame h w frame) :
    WFFrame h w (pp.apply noise sqrtFn frame) := by
  unfold PostProcessor.apply
  dsimp only
  set A1 := (if pp.contrast ≠ 1 then pp.enh_contrast pp.contrast frame else frame) with hA1
  have w1 : WFFrame h w A1 := WF_ite h w _ _ _ (hec _ _ hf) hf
  set A2 := (if pp.saturation ≠ 1 then pp.enh_color pp.saturation A1 else A1) with hA2
  have w2 : WFFrame h w A2 := WF_ite h w _ _ _ (heco _ _ w1) w1
  set A3 := (if pp.brightness ≠ 1 then pp.enh_brightness pp.brightness A2 else A2) with hA3
  have w3 : WFFrame h w A3 := WF_ite h w _ _ _ (heb _ _ w2) w2
  set A4 := (if pp.grain_intensity > 0 then apply_grain pp.grain_intensity noise A3 else A3)
    with hA4
  have w4 : WFFrame h w A4 :=
    WF_ite h w _ _ _ (apply_grain_WF _ _ _ _ _ w3) w3
  set A5 := (if pp.vignette > 0 then apply_vignette pp.vignette sqrtFn A4 else A4) with hA5
  have w5 : WFFrame h w A5 :=
    WF_ite h w _ _ _ (apply_vignette_WF _ _ _ _ _ w4) w4
  exact WF_ite h w _ _ _ (apply_chromatic_WF _ _ _ _ w5) w5

/-- C9 witness: the full effect chain on a concrete 1 × 2 frame yields a
well-formed 1 × 2 8-bit frame. -/
theorem C9_witness :
    WFFrame 1 2 (PostProcessor.apply ppC9
      (fun r c ch => ((r + c + ch : ℕ) : ℚ) - 100) (fun q => q) frameC9) :=
  C9_apply_preserves_frame_wellformedness ppC9
    (fun r c ch => ((r + c + ch : ℕ) : ℚ) - 100) (fun q => q) 1 2 frameC9
    (fun _ _ hg => hg) (fun _ _ hg => hg) (fun _ _ hg => hg) (by decide)

/-- C10: the mode classifier only ever produces "music" or "speech": the
`mode` of any FeatureTimeline returned by the analyzer is a member of the
declared literal type but is never "hybrid". -/
theorem C10_mode_never_hybrid (duration : ℚ) (sr fps : ℕ) (raw : RawFeatures)
    (f : AudioFeatures) (h : extract_features duration sr fps raw = some f) :
    f.mode ∈ allowed_modes ∧ (f.mode = "music" ∨ f.mode = "speech") ∧
      f.mode ≠ "hybrid" := by
  have hm := extract_features_mode duration sr fps raw f h
  unfold detect_mode at hm
  split at hm <;> rw [hm] <;> exact ⟨by decide, by decide, by decide⟩

/-- C10 witness: the concrete small analysis yields mode "music". -/
theorem C10_witness :
    featuresSmall.mode ∈ allowed_modes ∧
      (featuresSmall.mode = "music" ∨ featuresSmall.mode = "speech") ∧
      featuresSmall.mode ≠ "hybrid" :=
  C10_mode_never_hybrid (29/10) 44100 1 rawSmall featuresSmall extract_features_rawSmall

/-- C1 counterexample: at duration 2.9 s and fps 1 the analyzer produces
per-frame arrays of length `int(2.9 * 1) = 2` (Python truncation,
analyzer.py line 264), while the spec's `round(duration * fps)` is 3, so
the claimed length equation fails on this valid input. -/
theorem C1_counterexample :
    (extract_features (29/10) 44100 1 rawSmall).map (fun f => f.rms.length) = some 2 ∧
    pyRound ((29/10) * (1 : ℕ)) = 3 := by
  constructor
  · rw [extract_features_rawSmall]
    rfl
  · norm_num [pyRound]

/-- C1 amended: for every analysis that succeeds, every per-frame array
(rms/loudness, onset, spectral centroid, spectral rolloff, zero-crossing
rate) of the returned FeatureTimeline has length
`int(duration * fps)` — truncation, not rounding — and the chroma
(tone-profile) matrix has 12 rows with exactly that many columns. The
chroma hypotheses state what numpy guarantees for the librosa output: 12
rows, rectangular. -/
theorem C1_per_frame_arrays_have_trunc_length (duration : ℚ) (sr fps : ℕ)
    (raw : RawFeatures) (f : AudioFeatures)
    (hrows : raw.chroma.length = 12)
    (hrect : ∀ row ∈ raw.chroma, row.length = arrCols raw.chroma)
    (h : extract_features duration sr fps raw = some f) :
    f.rms.length = natFloor (duration * fps) ∧
    f.onset.length = natFloor (duration * fps) ∧
    f.spectral_centroid.length = natFloor (duration * fps) ∧
    f.spectral_rolloff.length = natFloor (duration * fps) ∧
    f.zero_crossing_rate.length = natFloor (duration * fps) ∧
    f.chroma.length = 12 ∧
    (∀ row ∈ f.chroma, row.length = natFloor (duration * fps)) := by
  simp only [extract_features, Option.bind_eq_some, Option.some.injEq] at h
  obtain ⟨rms, hrms, onset, honset, rms_t, hrms_t, onset_t, honset_t, cent_i, hcent_i,
    cent_t, hcent_t, roll_i, hroll_i, roll_t, hroll_t, zcr_i, hzcr_i, zcr_t, hzcr_t,
    chroma_t, hchroma_t, mfcc_t, hmfcc_t, tg_t, htg_t, hf⟩ := h
  subst hf
  refine ⟨interpolate_to_length_length _ _ _ hrms_t,
    interpolate_to_length_length _ _ _ honset_t,
    ?_, ?_, ?_, ?_, ?_⟩
  · rw [normalize_length _ _ hcent_t]
    exact interpolate_to_length_length _ _ _ hcent_i
  · rw [normalize_length _ _ hroll_t]
    exact interpolate_to_length_length _ _ _ hroll_i
  · rw [normalize_length _ _ hzcr_t]
    exact interpolate_to_length_length _ _ _ hzcr_i
  · by_cases hcc : arrCols raw.chroma = natFloor (duration * fps)
    · rw [if_pos hcc] at hchroma_t
      injection hchroma_t with h2
      rw [← h2]
      exact hrows
    · rw [if_neg hcc] at hchroma_t
      unfold interpolate_chroma at hchroma_t
      rw [if_neg hcc] at hchroma_t
      rw [optMap_length _ _ _ hchroma_t, List.length_range]
  · intro row hrow
    by_cases hcc : arrCols raw.chroma = natFloor (duration * fps)
    · rw [if_pos hcc] at hchroma_t
      injection hchroma_t with h2
      rw [← h2] at hrow
      rw [hrect row hrow]
      exact hcc
    · rw [if_neg hcc] at hchroma_t
      unfold interpolate_chroma at hchroma_t
      rw [if_neg hcc] at hchroma_t
      obtain ⟨i, _, hgi⟩ := optMap_mem _ _ _ hchroma_t row hrow
      simp only [Option.bind_eq_some] at hgi
      obtain ⟨row0, _, hnp⟩ := hgi
      rw [npInterp_length _ _ _ _ hnp, linspace01_length]

/-- C1 witness: the amended statement at the concrete small analysis
(duration 2.9 s, fps 1, frame count 2). -/
theorem C1_witness :
    featuresSmall.rms.length = natFloor ((29/10 : ℚ) * (1 : ℕ)) ∧
    featuresSmall.chroma.length = 12 ∧
    ∀ row ∈ featuresSmall.chroma, row.length = natFloor ((29/10 : ℚ) * (1 : ℕ)) :=
  letI H := C1_per_frame_arrays_have_trunc_length (29/10) 44100 1 rawSmall featuresSmall
    (by simp [rawSmall])
    (by
      intro row hrow
      simp only [rawSmall] at hrow
      rw [List.eq_of_mem_replicate hrow]
      rfl)
    extract_features_rawSmall
  ⟨H.1, H.2.2.2.2.2.1, H.2.2.2.2.2.2⟩

/-- Every in-loop progress fraction lies in `[0, 1]`. -/
theorem render_progress_mem_unit (n : ℕ) : ∀ x ∈ render_progress n, 0 ≤ x ∧ x ≤ 1 := by
  intro x hx
  unfold render_progress at hx
  obtain ⟨i, hi, hx⟩ := List.mem_map.mp hx
  have hin : i < n := List.mem_range.mp (List.mem_filter.mp hi).1
  have hn : (0 : ℚ) < n := by
    exact_mod_cast lt_of_le_of_lt (Nat.zero_le i) hin
  subst hx
  constructor
  · positivity
  · rw [div_le_one hn]
    exact_mod_cast Nat.succ_le_of_lt hin

/-- The fractions reported over one full run are non-decreasing. -/
theorem run_progress_sorted (n : ℕ) : List.Sorted (· ≤ ·) (run_progress n) := by
  have hmem := render_progress_mem_unit n
  have hsortedR : List.Sorted (· ≤ ·) (render_progress n) := by
    unfold render_progress
    rw [List.Sorted, List.pairwise_map]
    refine ((List.pairwise_lt_range n).filter _).imp ?_
    intro i j hij
    rw [div_eq_mul_inv, div_eq_mul_inv]
    refine mul_le_mul_of_nonneg_right ?_ (by positivity)
    exact_mod_cast Nat.succ_le_succ hij.le
  unfold run_progress
  refine List.Pairwise.cons ?_ ?_
  · intro b hb
    rcases List.mem_append.mp hb with hb | hb
    · exact (hmem b hb).1
    · rw [List.mem_singleton.mp hb]
      norm_num
  · show List.Pairwise (· ≤ ·) (render_progress n ++ [(1 : ℚ)])
    rw [List.pairwise_append]
    refine ⟨hsortedR, by simp, ?_⟩
    intro a ha b hb
    rw [List.mem_singleton.mp hb]
    exact (hmem a ha).2

/-- The report made at the final loop iteration equals exactly 1. -/
theorem render_progress_getLast (n : ℕ) (hn : 1 ≤ n) :
    (render_progress n).getLast? = some 1 := by
  obtain ⟨m, rfl⟩ : ∃ m, n = m + 1 := ⟨n - 1, (Nat.succ_pred_eq_of_pos hn).symm⟩
  unfold render_progress
  rw [List.range_succ, List.filter_append]
  have hp : List.filter (fun i => i % 30 == 0 || i == m + 1 - 1) [m] = [m] := by
    simp
  rw [hp, List.map_append]
  have h1 : ((m : ℚ) + 1) / ((m + 1 : ℕ) : ℚ) = 1 := by
    push_cast
    rw [div_self]
    exact ne_of_gt (by positivity)
  simp only [List.map_cons, List.map_nil]
  rw [List.getLast?_concat, h1]

/-- The final callback of a run reports exactly 1. -/
theorem run_progress_getLast (n : ℕ) : (run_progress n).getLast? = some 1 := by
  unfold run_progress
  show (((0 : ℚ) :: render_progress n) ++ [(1 : ℚ)]).getLast? = some (1 : ℚ)
  exact List.getLast?_concat _

/-- C3 counterexample: at frame count 1 the in-loop report of the final
frame is `(0 + 1) / 1 = 1.0`, so the claim that every fraction reported
inside the Encoding loop is strictly below 1.0 is false. -/
theorem C3_counterexample : ¬ ∀ x ∈ render_progress 1, x < 1 := by
  intro hall
  have h1 : (1 : ℚ) ∈ render_progress 1 := by
    unfold render_progress
    norm_num [List.range_succ]
  exact absurd (hall 1 h1) (lt_irrefl 1)

/-- C3 amended: over one run the reported fractions are non-decreasing
and every in-loop fraction is at most 1.0 — the in-loop report at the
final frame equals exactly 1.0 rather than staying below it — and the
final callback invocation reports exactly 1.0. -/
theorem C3_progress_monotone_final_one (n : ℕ) :
    List.Sorted (· ≤ ·) (run_progress n) ∧
    (∀ x ∈ render_progress n, x ≤ 1) ∧
    (1 ≤ n → (render_progress n).getLast? = some 1) ∧
    (run_progress n).getLast? = some 1 :=
  ⟨run_progress_sorted n, fun x hx => (render_progress_mem_unit n x hx).2,
   fun hn => render_progress_getLast n hn, run_progress_getLast n⟩

/-- C3 witness: the amended statement at frame count 31 (two in-loop
reports: frames 0 and 30). -/
theorem C3_witness :
    List.Sorted (· ≤ ·) (run_progress 31) ∧
    (∀ x ∈ render_progress 31, x ≤ 1) ∧
    (render_progress 31).getLast? = some 1 ∧
    (run_progress 31).getLast? = some 1 :=
  ⟨(C3_progress_monotone_final_one 31).1, (C3_progress_monotone_final_one 31).2.1,
   (C3_progress_monotone_final_one 31).2.2.1 (by norm_num),
   (C3_progress_monotone_final_one 31).2.2.2⟩

/-- Chunking with enough fuel concatenates back to the original list. -/
theorem chunkListFuel_flatten {α : Type} (k : ℕ) (hk : 0 < k) :
    ∀ (fuel : ℕ) (l : List α), l.length ≤ fuel → (chunkListFuel k fuel l).flatten = l := by
  intro fuel
  induction fuel with
  | zero =>
    intro l hl
    rw [List.length_eq_zero.mp (Nat.le_zero.mp hl)]
    rfl
  | succ m ih =>
    intro l hl
    cases l with
    | nil => rfl
    | cons a as =>
      show ((a :: as).take k :: chunkListFuel k m ((a :: as).drop k)).flatten = a :: as
      rw [List.flatten_cons, ih ((a :: as).drop k) ?_, List.take_append_drop]
      rw [List.length_drop]
      simp only [List.length_cons] at hl ⊢
      omega

/-- The batch partition of the scheduler concatenates back to the input
index list. -/
theorem chunkList_flatten {α : Type} (l : List α) (k : ℕ) (hk : 0 < k) :
    (chunkList l k).flatten = l :=
  chunkListFuel_flatten k hk l.length l le_rfl

/-- Reading a list back by positions reproduces the list. -/
theorem getD_range_map {β : Type} (l : List β) (d : β) :
    (List.range l.length).map (fun i => l.getD i d) = l := by
  induction l with
  | nil => rfl
  | cons a as ih =>
    rw [show (a :: as).length = as.length + 1 from rfl, List.range_succ_eq_map,
      List.map_cons, List.map_map]
    have hcomp : ((fun i => (a :: as).getD i d) ∘ Nat.succ) = fun i => as.getD i d := by
      funext i
      rfl
    rw [hcomp, ih]
    rfl

/-- Mapping a function over positional reads is mapping it over the list. -/
theorem map_getD_eq_map {β γ : Type} (L : List β) (d : β) (g : β → γ) :
    (List.range L.length).map (fun i => g (L.getD i d)) = L.map g := by
  have h1 : (fun i => g (L.getD i d)) = g ∘ (fun i => L.getD i d) := rfl
  rw [h1, ← List.map_map, getD_range_map]

/-- Projecting the index out of index-frame pairs recovers the indices. -/
theorem map_fst_pair {α : Type} (f : ℕ → α) (b : List ℕ) :
    b.map (Prod.fst ∘ fun idx => (idx, f idx)) = b := by
  have h : (Prod.fst ∘ fun idx => (idx, f idx)) = id := funext fun _ => rfl
  rw [h, List.map_id]

/-- Projecting the frame out of index-frame pairs renders the indices. -/
theorem map_snd_pair {α : Type} (f : ℕ → α) (b : List ℕ) :
    b.map (Prod.snd ∘ fun idx => (idx, f idx)) = b.map f := by
  have h : (Prod.snd ∘ fun idx => (idx, f idx)) = f := funext fun _ => rfl
  rw [h]

/-- The index components of one rendered batch are the batch itself. -/
theorem render_batch_map_fst {α : Type} (f : ℕ → α) (b : List ℕ) :
    (render_batch f b).map Prod.fst = b := by
  unfold render_batch
  rw [List.map_map, map_fst_pair]

/-- Every pair produced by the collected batches carries the frame
rendered deterministically from its own index. -/
theorem collected_pairs_form {α : Type} (f : ℕ → α) (batches : List (List ℕ))
    (co : List ℕ) :
    ∀ p ∈ (co.map fun b => render_batch f (batches.getD b [])).flatten,
      p.2 = f p.1 := by
  intro p hp
  rw [List.mem_flatten] at hp
  obtain ⟨L, hL, hpL⟩ := hp
  rw [List.mem_map] at hL
  obtain ⟨b, _, hb⟩ := hL
  rw [← hb] at hpL
  obtain ⟨idx, _, hidx⟩ := List.mem_map.mp hpL
  rw [← hidx]

/-- When every pair carries the frame of its own index, the frame
sequence is the rendered index sequence. -/
theorem map_snd_of_pairs_form {α : Type} (f : ℕ → α) :
    ∀ (l : List (ℕ × α)), (∀ p ∈ l, p.2 = f p.1) →
      l.map Prod.snd = (l.map Prod.fst).map f := by
  intro l
  induction l with
  | nil => intro _; rfl
  | cons p ps ih =>
    intro hall
    rw [List.map_cons, List.map_cons, List.map_cons,
      ih fun q hq => hall q (List.mem_cons_of_mem _ hq),
      hall p (List.mem_cons_self _ _)]

/-- C2 counterexample: on the short-job serial path the scheduler returns
the pairs in input order without sorting: for the index list `[1, 0]`
(two indices, below `chunk_size * 2 = 20`) the returned frame sequence is
`[f 1, f 0]`, not the serial in-increasing-order sequence `[f 0, f 1]`,
and the returned pair list is not sorted by frame index. -/
theorem C2_counterexample :
    render_frames_parallel (fun i : ℕ => i) [1, 0] 10 4 [] = [(1, 1), (0, 0)] ∧
    ¬ List.Sorted (fun a b => a ≤ b)
      ((render_frames_parallel (fun i : ℕ => i) [1, 0] 10 4 []).map Prod.fst) ∧
    (render_frames_parallel (fun i : ℕ => i) [1, 0] 10 4 []).map Prod.snd ≠
      [(fun i : ℕ => i) 0, (fun i : ℕ => i) 1] := by
  refine ⟨by decide, by decide, by decide⟩

/-- C2 amended: for index lists supplied in increasing order (the
pipeline always passes `0 .. frameCount-1`), `render_frames_parallel`
with a positive chunk size returns, for every completion order of the
worker batches, exactly one pair per input index with the pairs ordered
by frame index — the first components reproduce the input list — and the
frame sequence equals the serial rendering of the indices in increasing
order. On the short-job serial path the pairs are produced in input
order, which for an unsorted input violates the ordering contract
(see the counterexample), so sortedness of the input is assumed. -/
theorem C2_renderMany_ordered_serial_equivalent {α : Type} (render_func : ℕ → α)
    (frame_indices : List ℕ) (chunk_size num_workers : ℕ)
    (completion_order : List ℕ)
    (hchunk : 0 < chunk_size)
    (hsorted : List.Sorted (· ≤ ·) frame_indices)
    (hperm : completion_order.Perm
      (List.range (chunkList frame_indices chunk_size).length)) :
    (render_frames_parallel render_func frame_indices chunk_size num_workers
        completion_order).map Prod.fst = frame_indices ∧
    (render_frames_parallel render_func frame_indices chunk_size num_workers
        completion_order).map Prod.snd = frame_indices.map render_func := by
  unfold render_frames_parallel
  by_cases h0 : frame_indices.length = 0
  · rw [if_pos h0, List.length_eq_zero.mp h0]
    exact ⟨rfl, rfl⟩
  rw [if_neg h0]
  by_cases hshort : frame_indices.length < chunk_size * 2 ∨ num_workers = 1
  · rw [if_pos hshort]
    constructor
    · rw [List.map_map, map_fst_pair]
    · rw [List.map_map, map_snd_pair]
  · rw [if_neg hshort]
    dsimp only
    set batches := chunkList frame_indices chunk_size with hbatches
    set results :=
      (completion_order.map fun b => render_batch render_func (batches.getD b [])).flatten
      with hresults
    have hcanon :
        ((List.range batches.length).map fun b => render_batch render_func (batches.getD b []))
          = batches.map (render_batch render_func) :=
      map_getD_eq_map batches [] (render_batch render_func)
    have hres_perm : results.Perm ((batches.map (render_batch render_func)).flatten) := by
      rw [hresults, ← hcanon]
      exact (hperm.map _).flatten
    have hflat_fst :
        ((batches.map (render_batch render_func)).flatten).map Prod.fst = frame_indices := by
      rw [List.map_flatten, List.map_map]
      have hid : (List.map Prod.fst ∘ render_batch render_func) = id := by
        funext b
        exact render_batch_map_fst render_func b
      rw [hid, List.map_id]
      exact chunkList_flatten frame_indices chunk_size hchunk
    have hsort_perm : (sort_by_frame_index results).Perm results :=
      List.perm_insertionSort _ _
    have hr_fst_perm :
        ((sort_by_frame_index results).map Prod.fst).Perm frame_indices := by
      refine ((hsort_perm.map _).trans ((hres_perm.map _).trans ?_))
      rw [hflat_fst]
    have hr_sorted :
        List.Sorted (· ≤ ·) ((sort_by_frame_index results).map Prod.fst) :=
      List.pairwise_map.mpr (List.sorted_insertionSort _ _)
    have hfst_eq : (sort_by_frame_index results).map Prod.fst = frame_indices :=
      List.eq_of_perm_of_sorted hr_fst_perm hr_sorted hsorted
    refine ⟨hfst_eq, ?_⟩
    have hform : ∀ p ∈ sort_by_frame_index results, p.2 = render_func p.1 := by
      intro p hp
      exact collected_pairs_form render_func batches completion_order p
        ((hsort_perm.mem_iff).mp hp)
    rw [map_snd_of_pairs_form render_func _ hform, hfst_eq]

/-- C2 witness: 25 sorted indices, chunk size 10 (3 batches), 4 workers,
batches completing in the order 2, 0, 1. -/
theorem C2_witness :
    (render_frames_parallel (fun i : ℕ => i * i) (List.range 25) 10 4 [2, 0, 1]).map
        Prod.fst = List.range 25 ∧
    (render_frames_parallel (fun i : ℕ => i * i) (List.range 25) 10 4 [2, 0, 1]).map
        Prod.snd = (List.range 25).map (fun i => i * i) :=
  C2_renderMany_ordered_serial_equivalent (fun i => i * i) (List.range 25) 10 4 [2, 0, 1]
    (by decide) (by decide) (by decide)

/-- C5: `PostProcessor.apply` with every parameter at its neutral value
(contrast = saturation = brightness = 1.0, grain = vignette = chromatic
aberration = 0.0, no LUT) returns the input frame unchanged, whatever the
PIL enhancement operations, the grain noise and the sqrt function are. -/
theorem C5_apply_all_neutral_is_identity (e1 e2 e3 : ℚ → Frame → Frame)
    (noise : ℕ → ℕ → ℕ → ℚ) (sqrtFn : ℚ → ℚ) (frame : Frame) :
    PostProcessor.apply
      { contrast := 1, saturation := 1, brightness := 1, grain_intensity := 0,
        chromatic := 0, vignette := 0, lut := none,
        enh_contrast := e1, enh_color := e2, enh_brightness := e3 }
      noise sqrtFn frame = frame := by
  simp [PostProcessor.apply]

/-- C6: after `PreviewPipeline.run`, whether the inherited run returns
normally or raises, the caller's `config.visual.resolution` and
`config.visual.fps` equal their pre-call values: the restoration in the
`finally` block is unconditional. -/
theorem C6_preview_run_restores_resolution_and_fps (settings : Settings)
    (inner : VisualConfig → VisualConfig × Except String Unit)
    (config : VisualConfig) :
    (preview_run settings inner config).1.resolution = config.resolution ∧
    (preview_run settings inner config).1.fps = config.fps :=
  ⟨rfl, rfl⟩

/-- C7 counterexample: a failing cache write makes the analyzer raise
instead of returning the computed timeline — the exception from
`_save_cache` propagates out of `_extract_features` untouched. -/
theorem C7_counterexample :
    save_and_return featuresSmall (fun _ => Except.error "disk full")
      = Except.error "disk full" := rfl

/-- C7 amended: a cache-write failure is not swallowed: the exception
propagates out of `analyze` and the computed timeline is not returned;
only a successful write returns the timeline. -/
theorem C7_cache_write_failure_propagates (features : AudioFeatures)
    (save : AudioFeatures → Except String Unit) :
    (∀ e, save features = Except.error e →
      save_and_return features save = Except.error e) ∧
    (save features = Except.ok () →
      save_and_return features save = Except.ok features) := by
  constructor
  · intro e he
    unfold save_and_return
    rw [he]
  · intro hok
    unfold save_and_return
    rw [hok]

/-- C7 witness: both branches of the amended statement at concrete inputs. -/
theorem C7_witness :
    save_and_return featuresSmall (fun _ => Except.error "boom")
      = Except.error "boom" ∧
    save_and_return featuresSmall (fun _ => Except.ok ())
      = Except.ok featuresSmall :=
  ⟨(C7_cache_write_failure_propagates featuresSmall (fun _ => Except.error "boom")).1
      "boom" rfl,
   (C7_cache_write_failure_propagates featuresSmall (fun _ => Except.ok ())).2 rfl⟩

/-- C8 counterexample: a preview-mode run does mutate the FeatureTimeline
returned by `analyze`: with `preview_duration = 1` on a timeline of
duration 2.9 the pipeline's clamping assignment changes the object. -/
theorem C8_counterexample :
    run_preview_clamp true 1 featuresSmall ≠ featuresSmall := by
  intro h
  have hd := congrArg AudioFeatures.duration h
  have hmin : min (1 : ℚ) (29/10) = 1 := min_eq_left (by norm_num)
  simp [run_preview_clamp, featuresSmall, hmin] at hd
  norm_num at hd

/-- C8 amended: the preview-mode clamp mutates exactly the `duration`
field of the FeatureTimeline (to `min(preview_duration, duration)`, which
shrinks the derived `frame_count`); every other field is untouched, and a
non-preview run mutates nothing. -/
theorem C8_preview_clamp_mutates_only_duration (preview_mode : Bool)
    (preview_duration : ℚ) (f : AudioFeatures) :
    (run_preview_clamp preview_mode preview_duration f).sample_rate = f.sample_rate ∧
    (run_preview_clamp preview_mode preview_duration f).fps = f.fps ∧
    (run_preview_clamp preview_mode preview_duration f).rms = f.rms ∧
    (run_preview_clamp preview_mode preview_duration f).onset = f.onset ∧
    (run_preview_clamp preview_mode preview_duration f).spectral_centroid = f.spectral_centroid ∧
    (run_preview_clamp preview_mode preview_duration f).spectral_rolloff = f.spectral_rolloff ∧
    (run_preview_clamp preview_mode preview_duration f).zero_crossing_rate = f.zero_crossing_rate ∧
    (run_preview_clamp preview_mode preview_duration f).chroma = f.chroma ∧
    (run_preview_clamp preview_mode preview_duration f).mfcc = f.mfcc ∧
    (run_preview_clamp preview_mode preview_duration f).tempogram = f.tempogram ∧
    (run_preview_clamp preview_mode preview_duration f).tempo = f.tempo ∧
    (run_preview_clamp preview_mode preview_duration f).key = f.key ∧
    (run_preview_clamp preview_mode preview_duration f).mode = f.mode ∧
    (run_preview_clamp true preview_duration f).duration = min preview_duration f.duration ∧
    run_preview_clamp false preview_duration f = f := by
  unfold run_preview_clamp
  cases preview_mode <;> simp

/-- C4: with parallel mode enabled the Encoding loop still obtains every
frame by calling the generator's `render_frame` directly: the `parallel`
flag changes nothing about the frame source (the FrameScheduler is never
consulted by `_render_video`), contradicting both the design document and
the pipeline's own "Paralleles Rendering" log line. -/
theorem C4_parallel_flag_never_switches_frame_source {α : Type}
    (render_frame : ℕ → α) (post : α → α) (n : ℕ) :
    render_video_frames true render_frame post n
      = render_video_frames false render_frame post n ∧
    render_video_frames true render_frame post n
      = (List.range n).map (fun i => post (render_frame i)) :=
  ⟨rfl, rfl⟩

end AudioVizPro
